import Mathlib

/-!
# Verification of the claudy workspace manager (src/index.ts)

A shallow embedding of the claudy CLI tool: a JSON-backed registry of
"workspace" records (name, description, working directory, optional extra
directories) together with add / edit / remove / launch commands.

Modelling conventions:
* The filesystem existence check `existsSync` is modelled by a predicate
  `fs : String → Bool` passed explicitly to every operation that checks paths.
* Interactive collaborators (`createPrompt` / `createSelection` from
  bun-promptx) return `Option String` (trimmed text, `none` on cancel) and
  `Option Nat` (selected index, `none` on cancel); responses are passed as
  explicit arguments.
* `process.exit` / `die` are modelled by outcome inductives that record
  whether the process terminated fatally (exit code 1), was cancelled with
  no effect, or completed; a `save` of the registry only happens in the
  outcomes that carry the new config.
* Node's `path` library (`join`, `resolve`, `basename`) is modelled at the
  level the tool uses it: absolute-vs-relative joining without dot-segment
  normalization, which no claim depends on.
* The persisted file is modelled at the parsed-JSON level: a `FileState` is
  absent, unparsable, or a parsed `Json` value.  `JSON.stringify(c, null, 2)`
  is implemented faithfully as `Json.stringify`; `JSON.parse` of a file that
  `save` itself wrote is modelled as recovering the serialized `Json` value
  (the parse/stringify round trip of the external JSON library).
-/

namespace Claudy

/-- A workspace record, from `interface Workspace` in src/index.ts.
`addDirs` is an optional field: `none` models the key being absent. -/
structure Workspace where
  name : String
  description : String
  cwd : String
  addDirs : Option (List String) := none
deriving Repr, DecidableEq

/-- The configuration document, from `interface Config`. -/
structure Config where
  workspaces : List Workspace
deriving Repr, DecidableEq

/-- Environment the path resolver depends on: the user's home directory and
the process working directory. -/
structure PathEnv where
  home : String
  processCwd : String
deriving Repr, DecidableEq

/-- Model of JavaScript `String.prototype.startsWith`: prefix test on the
character sequence.  Structurally recursive so that concrete instances
compute inside the kernel. -/
def strStartsWith (s pre : String) : Bool :=
  pre.data.isPrefixOf s.data

/-- Model of `s.slice(n)`: drop the first `n` characters. -/
def strDrop (s : String) (n : Nat) : String :=
  ⟨s.data.drop n⟩

/-- Model of JavaScript `String.prototype.toLowerCase` at the basic-latin
level the tool compares names at. -/
def toLowerStr (s : String) : String :=
  ⟨s.data.map Char.toLower⟩

/-- Model of Node `path.join a b` as used on `join(homedir(), s.slice(1))`:
plain concatenation with a single separator (no dot-segment cleanup). -/
def joinPath (a b : String) : String :=
  if b = "" then a
  else if strStartsWith b "/" then a ++ b
  else a ++ "/" ++ b

/-- Model of Node `path.resolve s` against the process working directory:
an absolute path is returned as is, a relative one is joined to the base. -/
def resolveAbs (base s : String) : String :=
  if strStartsWith s "/" then s else base ++ "/" ++ s

/-- `resolvePath` from src/index.ts: empty input means the process working
directory, a leading `~` is replaced by the home directory, anything else is
resolved against the process working directory. -/
def resolvePath (env : PathEnv) (s : String) : String :=
  if s = "" then env.processCwd
  else if strStartsWith s "~" then joinPath env.home (strDrop s 1)
  else resolveAbs env.processCwd s

/-- Splitting a character sequence at `/`, the separator grouping behind
Node `path.basename`. -/
def splitOnSlash : List Char → List (List Char)
  | [] => [[]]
  | c :: rest =>
    if c = '/' then [] :: splitOnSlash rest
    else
      match splitOnSlash rest with
      | [] => [[c]]
      | seg :: segs => (c :: seg) :: segs

/-- Model of Node `path.basename`: the final nonempty path segment;
`"/"` for a path of separators only, `""` for the empty string. -/
def basename (p : String) : String :=
  match (((splitOnSlash p.data).map String.mk).filter (fun s => s ≠ "")).getLast? with
  | some s => s
  | none => if p = "" then "" else "/"

/-- `findByName` from src/index.ts: first workspace whose name matches
case-insensitively (`w.name.toLowerCase() === n.toLowerCase()`). -/
def findByName (c : Config) (n : String) : Option Workspace :=
  c.workspaces.find? (fun w => toLowerStr w.name = toLowerStr n)

/-- `findByCwd` from src/index.ts: first workspace whose `cwd` matches
exactly. -/
def findByCwd (c : Config) (p : String) : Option Workspace :=
  c.workspaces.find? (fun w => w.cwd = p)

/-- First-occurrence deduplication, the behavior of `[...new Set(addDirs)]`
in `cmdAdd` (JavaScript `Set` iterates in insertion order). -/
def dedupFirst (l : List String) : List String :=
  l.foldl (fun acc x => if x ∈ acc then acc else acc ++ [x]) []

/-! ## The persisted JSON document -/

/-- JSON values, as produced by `JSON.parse`.  Object fields are listed in
insertion order with distinct keys (the post-parse view: `JSON.parse`
collapses duplicate keys, keeping the last).  Numeric leaves carry an
integer; no claim depends on numeric content. -/
inductive Json where
  | null : Json
  | bool (b : Bool) : Json
  | num (n : Int) : Json
  | str (s : String) : Json
  | arr (items : List Json) : Json
  | obj (fields : List (String × Json)) : Json
deriving Repr

/-- Field lookup on a parsed value, the model of `data?.workspaces`:
`none` when the value is not an object or lacks the key. -/
def Json.lookup : Json → String → Option Json
  | .obj fields, k => (fields.find? (fun f => f.1 = k)).map (fun f => f.2)
  | _, _ => none

/-- `Array.isArray` applied to an optional field value. -/
def Json.isArrOpt : Option Json → Bool
  | some (.arr _) => true
  | _ => false

/-- JSON string escaping as performed by `JSON.stringify`. -/
def escapeChar (c : Char) : String :=
  if c = '"' then "\\\""
  else if c = '\\' then "\\\\"
  else if c = '\n' then "\\n"
  else if c = '\r' then "\\r"
  else if c = '\t' then "\\t"
  else if c = '\x08' then "\\b"
  else if c = '\x0c' then "\\f"
  else if c.toNat < 32 then
    "\\u00" ++ String.mk [Nat.digitChar (c.toNat / 16), Nat.digitChar (c.toNat % 16)]
  else String.mk [c]

/-- A JSON string literal with surrounding quotes. -/
def escapeString (s : String) : String :=
  "\"" ++ String.join (s.toList.map escapeChar) ++ "\""

/-- `n` levels of the two-space gap of `JSON.stringify(c, null, 2)`. -/
def indentStr (n : Nat) : String :=
  String.join (List.replicate n "  ")

mutual

/-- `JSON.stringify(v, null, 2)` at nesting depth `ind`: empty containers
print inline, nonempty ones one element per line with two-space indent. -/
def Json.stringifyAt : Nat → Json → String
  | _, .null => "null"
  | _, .bool b => if b then "true" else "false"
  | _, .num n => toString n
  | _, .str s => escapeString s
  | _, .arr [] => "[]"
  | ind, .arr (x :: xs) =>
    "[\n" ++ String.intercalate ",\n" (Json.stringifyItems (ind + 1) (x :: xs))
      ++ "\n" ++ indentStr ind ++ "]"
  | _, .obj [] => "\x7b\x7d"
  | ind, .obj (f :: fs) =>
    "\x7b\n" ++ String.intercalate ",\n" (Json.stringifyFields (ind + 1) (f :: fs))
      ++ "\n" ++ indentStr ind ++ "\x7d"

/-- Array elements, each on its own indented line. -/
def Json.stringifyItems : Nat → List Json → List String
  | _, [] => []
  | ind, x :: xs =>
    (indentStr ind ++ Json.stringifyAt ind x) :: Json.stringifyItems ind xs

/-- Object fields, each `"key": value` on its own indented line. -/
def Json.stringifyFields : Nat → List (String × Json) → List String
  | _, [] => []
  | ind, (k, v) :: fs =>
    (indentStr ind ++ escapeString k ++ ": " ++ Json.stringifyAt ind v)
      :: Json.stringifyFields ind fs

end

/-- Top-level `JSON.stringify(c, null, 2)`. -/
def Json.stringify (j : Json) : String := Json.stringifyAt 0 j

/-- The JSON encoding of one workspace: the object literal of `cmdAdd`
with keys in insertion order, `addDirs` present only when the record
carries it. -/
def workspaceToJson (w : Workspace) : Json :=
  .obj ([("name", .str w.name), ("description", .str w.description),
         ("cwd", .str w.cwd)] ++
    (match w.addDirs with
     | some l => [("addDirs", .arr (l.map .str))]
     | none => []))

/-- The JSON encoding of a whole config. -/
def configToJson (c : Config) : Json :=
  .obj [("workspaces", .arr (c.workspaces.map workspaceToJson))]

/-- The literal `{ workspaces: [] }` returned by `load` on its three
fallback branches. -/
def emptyConfigJson : Json := .obj [("workspaces", .arr [])]

/-- The exact bytes `save` writes for a value:
`JSON.stringify(c, null, 2) + "\n"`. -/
def saveBytes (j : Json) : String := Json.stringify j ++ "\n"

/-- The observable state of the persisted file when `load` runs: absent,
present but not valid JSON, or present and parsed to a `Json` value. -/
inductive FileState where
  | absent : FileState
  | unparsable : FileState
  | parsed (j : Json) : FileState
deriving Repr

/-- What `load` returns, together with whether it printed the
"Config corrupted" warning.  `load` returns the parsed `data` verbatim when
`data?.workspaces` is an array; the missing-file branch and the
wrong-shape branch return the empty config silently, and the catch branch
(unparsable content) warns and returns the empty config. -/
structure LoadResult where
  data : Json
  warned : Bool
deriving Repr

/-- `load` from src/index.ts, at the parsed-file level. -/
def load : FileState → LoadResult
  | .absent => ⟨emptyConfigJson, false⟩
  | .unparsable => ⟨emptyConfigJson, true⟩
  | .parsed j =>
    if Json.isArrOpt (j.lookup "workspaces") then ⟨j, false⟩
    else ⟨emptyConfigJson, false⟩

/-! ## The add command -/

/-- Outcome of `cmdAdd`: `die` with exit code 1 (no save), a silent return
with no save (cancelled prompt or confirmation), or a successful push of
the new workspace followed by `save`.  Only the `saved` outcome writes the
registry. -/
inductive AddOutcome where
  | fatal (msg : String) : AddOutcome
  | cancelled : AddOutcome
  | saved (c : Config) : AddOutcome
deriving Repr, DecidableEq

/-- The resolved working directory of `cmdAdd`: `resolvePath(args[1] ?? "")`. -/
def addCwd (env : PathEnv) (args : List String) : String :=
  resolvePath env ((args[1]?).getD "")

/-- The workspace name of `cmdAdd`: `args[0] || basename(cwd)` (an absent or
empty first argument falls back to the final segment of the resolved cwd). -/
def addName (env : PathEnv) (args : List String) : String :=
  match args[0]? with
  | some s => if s = "" then basename (addCwd env args) else s
  | none => basename (addCwd env args)

/-- The raw additional directories of `cmdAdd`:
`args.slice(2).map(resolvePath).filter(d => d !== cwd)`. -/
def addRawDirs (env : PathEnv) (args : List String) : List String :=
  ((args.drop 2).map (resolvePath env)).filter (fun d => d != addCwd env args)

/-- `cmdAdd` from src/index.ts.  `fs` models `existsSync`; `descResp` is the
interactive description prompt's answer (unused when arguments were given);
`confirmResp` is the index chosen on the `[Save, Cancel]` confirmation
selection (`none` on cancel). -/
def cmdAdd (env : PathEnv) (fs : String → Bool) (config : Config)
    (args : List String) (descResp : Option String) (confirmResp : Option Nat) :
    AddOutcome :=
  let isInteractive := args.isEmpty
  let cwd := addCwd env args
  let name := addName env args
  let addDirs := addRawDirs env args
  if !fs cwd then .fatal ("Directory not found: " ++ cwd)
  else if (findByName config name).isSome then
    .fatal ("Workspace already exists: " ++ name)
  else if (findByCwd config cwd).isSome then
    .fatal ("Directory already registered: " ++ cwd)
  else match addDirs.find? (fun d => !fs d) with
  | some d => .fatal ("Directory not found: " ++ d)
  | none =>
      let uniqueAddDirs := dedupFirst addDirs
      let descStep : Option String :=
        if isInteractive then
          match descResp with
          | none => none
          | some input => some (if input = "" then name else input)
        else some name
      match descStep with
      | none => .cancelled
      | some desc =>
        let ws : Workspace :=
          { name := name, description := desc, cwd := cwd,
            addDirs := if uniqueAddDirs.length > 0 then some uniqueAddDirs else none }
        if confirmResp = some 0 then
          .saved { workspaces := config.workspaces ++ [ws] }
        else .cancelled

/-! ## The edit command

`cmdEdit` runs an interactive loop over one workspace (at index `i` in the
loaded config); each menu choice mutates one field and saves, or prints a
warning and leaves the config untouched, and in either case the loop
redisplays the menu.  Each `case` of the `switch` is modelled as one
function from the prompt/selection responses to the new config plus two
flags: whether `save(config)` ran and whether a `⚠` warning was printed.
No branch of the edit loop terminates the process. -/

/-- Result of one edit-menu action: the config afterwards, whether it was
saved, and whether a warning was printed. -/
structure EditResult where
  config : Config
  saved : Bool
  warned : Bool
deriving Repr, DecidableEq

/-- Replace the workspace at index `i` (the in-place mutation `ws.x = v`
followed by `save(config)`). -/
def setWs (c : Config) (i : Nat) (w : Workspace) : Config :=
  { workspaces := c.workspaces.set i w }

/-- `case 0` of the edit switch: rename.  A nonempty answer different from
the current name is applied unless `findByName` finds any workspace with
that name (case-insensitively) — including this very workspace, so a
case-only rename is rejected with a warning. -/
def editName (c : Config) (i : Nat) (v : Option String) : EditResult :=
  match c.workspaces[i]? with
  | none => ⟨c, false, false⟩
  | some ws =>
    match v with
    | none => ⟨c, false, false⟩
    | some s =>
      if s ≠ "" ∧ s ≠ ws.name then
        if (findByName c s).isSome then ⟨c, false, true⟩
        else ⟨setWs c i { ws with name := s }, true, false⟩
      else ⟨c, false, false⟩

/-- `case 1` of the edit switch: a nonempty answer replaces the
description and saves; empty or cancelled input changes nothing. -/
def editDescription (c : Config) (i : Nat) (v : Option String) : EditResult :=
  match c.workspaces[i]? with
  | none => ⟨c, false, false⟩
  | some ws =>
    match v with
    | none => ⟨c, false, false⟩
    | some s =>
      if s ≠ "" then ⟨setWs c i { ws with description := s }, true, false⟩
      else ⟨c, false, false⟩

/-- `case 2` of the edit switch: change the working directory.  The
resolved path must exist and must not be the `cwd` of a workspace with a
different name; on success any `addDirs` entries equal to the new `cwd`
are filtered out and the field is dropped when that empties it. -/
def editCwd (env : PathEnv) (fs : String → Bool) (c : Config) (i : Nat)
    (v : Option String) : EditResult :=
  match c.workspaces[i]? with
  | none => ⟨c, false, false⟩
  | some ws =>
    match v with
    | none => ⟨c, false, false⟩
    | some s =>
      if s ≠ "" then
        let p := resolvePath env s
        if !fs p then ⟨c, false, true⟩
        else
          match findByCwd c p with
          | some other =>
            if other.name ≠ ws.name then ⟨c, false, true⟩
            else
              ⟨setWs c i (applyCwdChange ws p), true, false⟩
          | none => ⟨setWs c i (applyCwdChange ws p), true, false⟩
      else ⟨c, false, false⟩
where
  /-- `ws.cwd = p` plus the addDirs pruning of case 2. -/
  applyCwdChange (ws : Workspace) (p : String) : Workspace :=
    { ws with
      cwd := p,
      addDirs :=
        match ws.addDirs with
        | some l =>
          let l' := l.filter (fun d => d != p)
          if l'.length = 0 then none else some l'
        | none => none }

/-- `case 3`, action `Add`: append a resolved path that exists, differs
from `cwd`, and is not already present; `(ws.addDirs ??= []).push(p)`. -/
def addDirAdd (env : PathEnv) (fs : String → Bool) (c : Config) (i : Nat)
    (v : Option String) : EditResult :=
  match c.workspaces[i]? with
  | none => ⟨c, false, false⟩
  | some ws =>
    match v with
    | none => ⟨c, false, false⟩
    | some s =>
      if s ≠ "" then
        let p := resolvePath env s
        if !fs p then ⟨c, false, true⟩
        else if p = ws.cwd then ⟨c, false, true⟩
        else if (ws.addDirs.getD []).contains p then ⟨c, false, true⟩
        else ⟨setWs c i { ws with addDirs := some ((ws.addDirs.getD []) ++ [p]) },
              true, false⟩
      else ⟨c, false, false⟩

/-- `case 3`, action `Remove`: warn when there is nothing to remove,
otherwise splice out the selected index (key dropped when the list
empties) and save; a cancelled selection changes nothing. -/
def addDirRemove (c : Config) (i : Nat) (di : Option Nat) : EditResult :=
  match c.workspaces[i]? with
  | none => ⟨c, false, false⟩
  | some ws =>
    match ws.addDirs with
    | none => ⟨c, false, true⟩
    | some l =>
      if l.length = 0 then ⟨c, false, true⟩
      else
        match di with
        | none => ⟨c, false, false⟩
        | some k =>
          let l' := l.eraseIdx k
          ⟨setWs c i { ws with addDirs := if l'.length = 0 then none else some l' },
           true, false⟩

/-- `case 3`, action `Clear`: drop the whole `addDirs` field and save when
it is present and nonempty; otherwise do nothing. -/
def addDirClear (c : Config) (i : Nat) : EditResult :=
  match c.workspaces[i]? with
  | none => ⟨c, false, false⟩
  | some ws =>
    match ws.addDirs with
    | some l =>
      if l.length ≠ 0 then ⟨setWs c i { ws with addDirs := none }, true, false⟩
      else ⟨c, false, false⟩
    | none => ⟨c, false, false⟩

/-! ## The launcher -/

/-- Outcome of `launch(ws)`: `die` (exit code 1, nothing spawned) or a
spawn of the external program — recorded with the working directory and
argument vector passed to `Bun.spawn` — followed by `process.exit` with
the child's exit code. -/
inductive LaunchOutcome where
  | fatal (msg : String) : LaunchOutcome
  | spawned (cwd : String) (argv : List String) (exitCode : Int) : LaunchOutcome
deriving Repr, DecidableEq

/-- The exit code of the claudy process itself: `die` exits 1, a spawn
exits with the child's code. -/
def LaunchOutcome.exit : LaunchOutcome → Int
  | .fatal _ => 1
  | .spawned _ _ code => code

/-- `launch(ws)` from src/index.ts: re-validate `cwd` and every `addDirs`
entry against the filesystem, dying before any spawn on the first missing
path; then spawn `claude` in `ws.cwd` with a `--add-dir d` pair per stored
entry and exit with `p.exitCode ?? 0`.  `childCode` is the exit code the
spawned process reports (`none` when unavailable). -/
def launch (fs : String → Bool) (childCode : Option Int) (ws : Workspace) :
    LaunchOutcome :=
  if !fs ws.cwd then .fatal ("Working directory not found: " ++ ws.cwd)
  else
    match (ws.addDirs.getD []).find? (fun d => !fs d) with
    | some d => .fatal ("Additional directory not found: " ++ d)
    | none =>
      .spawned ws.cwd
        ("claude" :: (ws.addDirs.getD []).flatMap (fun d => ["--add-dir", d]))
        (childCode.getD 0)

/-- The direct-launch path of `cmdLaunch(name)`: look the name up
case-insensitively, die when absent, otherwise hand over to `launch`. -/
def cmdLaunchByName (fs : String → Bool) (childCode : Option Int)
    (config : Config) (name : String) : LaunchOutcome :=
  match findByName config name with
  | none => .fatal ("Workspace not found: " ++ name)
  | some ws => launch fs childCode ws

/-! ## The addDirs shape invariant -/

/-- The documented shape of `addDirs`: when the field is present it is
nonempty, duplicate-free, and contains no entry equal to the record's own
`cwd`. -/
def wsInv (w : Workspace) : Prop :=
  match w.addDirs with
  | none => True
  | some l => l ≠ [] ∧ l.Nodup ∧ w.cwd ∉ l

instance : DecidablePred wsInv := fun w =>
  match h : w.addDirs with
  | none => isTrue (by simp [wsInv, h])
  | some l =>
    decidable_of_iff (l ≠ [] ∧ l.Nodup ∧ w.cwd ∉ l) (by simp [wsInv, h])

/-- Every workspace of the config satisfies the `addDirs` shape invariant. -/
def configInv (c : Config) : Prop :=
  ∀ w ∈ c.workspaces, wsInv w

instance : DecidablePred configInv := fun c =>
  decidable_of_iff (∀ w ∈ c.workspaces, wsInv w) Iff.rfl

/-! ## Helper lemmas -/

theorem mem_dedup_foldl (l : List String) :
    ∀ (acc : List String) (x : String),
      x ∈ l.foldl (fun acc x => if x ∈ acc then acc else acc ++ [x]) acc →
      x ∈ acc ∨ x ∈ l := by
  induction l with
  | nil => intro acc x h; exact Or.inl h
  | cons a t ih =>
    intro acc x h
    rw [List.foldl_cons] at h
    rcases ih _ x h with h' | h'
    · by_cases ha : a ∈ acc
      · simp only [if_pos ha] at h'
        exact Or.inl h'
      · simp only [if_neg ha, List.mem_append, List.mem_singleton] at h'
        rcases h' with h' | h'
        · exact Or.inl h'
        · exact Or.inr (h' ▸ List.mem_cons_self a t)
    · exact Or.inr (List.mem_cons_of_mem a h')

theorem nodup_dedup_foldl (l : List String) :
    ∀ (acc : List String), acc.Nodup →
      (l.foldl (fun acc x => if x ∈ acc then acc else acc ++ [x]) acc).Nodup := by
  induction l with
  | nil => intro acc h; exact h
  | cons a t ih =>
    intro acc hacc
    rw [List.foldl_cons]
    apply ih
    by_cases ha : a ∈ acc
    · simpa [ha] using hacc
    · simp only [if_neg ha]
      simp [List.nodup_append, hacc, ha]

/-- Deduplication never invents entries. -/
theorem mem_of_mem_dedupFirst {l : List String} {x : String}
    (h : x ∈ dedupFirst l) : x ∈ l :=
  (mem_dedup_foldl l [] x h).resolve_left (by simp)

/-- Deduplication yields a duplicate-free list. -/
theorem nodup_dedupFirst (l : List String) : (dedupFirst l).Nodup :=
  nodup_dedup_foldl l [] List.nodup_nil

/-- The workspace `cmdAdd` builds on its non-interactive success path. -/
def addBuiltWs (env : PathEnv) (args : List String) : Workspace :=
  { name := addName env args
    description := addName env args
    cwd := addCwd env args
    addDirs :=
      if (dedupFirst (addRawDirs env args)).length > 0 then
        some (dedupFirst (addRawDirs env args))
      else none }

/-- With valid non-interactive arguments, `cmdAdd` reaches the confirmation
step and commits exactly when the first option is chosen. -/
theorem cmdAdd_valid_noninteractive (env : PathEnv) (fs : String → Bool)
    (config : Config) (args : List String) (descResp : Option String)
    (r : Option Nat)
    (h1 : args ≠ [])
    (h2 : fs (addCwd env args) = true)
    (h3 : findByName config (addName env args) = none)
    (h4 : findByCwd config (addCwd env args) = none)
    (h5 : ∀ d ∈ addRawDirs env args, fs d = true) :
    cmdAdd env fs config args descResp r =
      if r = some 0 then
        .saved { workspaces := config.workspaces ++ [addBuiltWs env args] }
      else .cancelled := by
  have hfind : (addRawDirs env args).find? (fun d => !fs d) = none :=
    List.find?_eq_none.mpr (fun d hd => by simp [h5 d hd])
  have hne : args.isEmpty = false := by
    cases args with
    | nil => exact absurd rfl h1
    | cons a t => rfl
  simp only [cmdAdd, hne, h2, h3, h4, hfind, Bool.not_true, Bool.false_eq_true,
    if_false, Option.isSome_none, addBuiltWs]

/-! ## Claims -/

/-- C1 counterexample: renaming the workspace "Foo" to "FOO" collides with
no workspace other than itself, so the claim says it is accepted and
persisted; the code instead rejects it with a warning (because `findByName`
also matches the workspace being edited), keeping the old name and saving
nothing. -/
theorem C1_counterexample :
    editName ⟨[⟨"Foo", "d", "/a", none⟩]⟩ 0 (some "FOO") =
      ⟨⟨[⟨"Foo", "d", "/a", none⟩]⟩, false, true⟩ := by
  decide

/-- C1 (amended): a rename to a nonempty value different from the current
name is rejected with a warning — old name kept, nothing saved, session not
aborted — exactly when the new name collides case-insensitively with any
existing workspace, the edited workspace itself included (so case-only
renames are rejected); when it collides with none it is applied and saved. -/
theorem C1_rename_collision (c : Config) (i : Nat) (ws : Workspace) (v : String)
    (hws : c.workspaces[i]? = some ws) (hv : v ≠ "") (hne : v ≠ ws.name) :
    ((findByName c v).isSome = true → editName c i (some v) = ⟨c, false, true⟩) ∧
    (findByName c v = none →
      editName c i (some v) = ⟨setWs c i { ws with name := v }, true, false⟩) := by
  constructor
  · intro hfind
    simp [editName, hws, hv, hne, hfind]
  · intro hfind
    simp [editName, hws, hv, hne, hfind]

/-- C1 witness: a rename of "Foo" to the fresh name "Baz" is applied and
saved. -/
theorem C1_rename_collision_witness :
    editName ⟨[⟨"Foo", "d", "/a", none⟩, ⟨"Bar", "e", "/b", none⟩]⟩ 0 (some "Baz") =
      ⟨setWs ⟨[⟨"Foo", "d", "/a", none⟩, ⟨"Bar", "e", "/b", none⟩]⟩ 0
        ⟨"Baz", "d", "/a", none⟩, true, false⟩ :=
  (C1_rename_collision ⟨[⟨"Foo", "d", "/a", none⟩, ⟨"Bar", "e", "/b", none⟩]⟩ 0
    ⟨"Foo", "d", "/a", none⟩ "Baz" rfl (by decide) (by decide)).2 (by decide)

/-- C2 counterexample: the parsed content `{}` is valid JSON whose shape is
not an object with a `workspaces` sequence; the claim says a warning is
printed, but `load` returns the empty registry silently (`warned = false`) —
the warning is printed only on the unparsable branch. -/
theorem C2_counterexample :
    load (FileState.parsed (Json.obj [])) = ⟨emptyConfigJson, false⟩ := by
  rfl

/-- C2 (amended): `load` is total (never throws).  An absent file yields the
empty registry with no warning; unparsable content yields the empty registry
with the corruption warning; parsable content whose `workspaces` field is
not an array yields the empty registry silently, with no warning; and
well-shaped content is returned verbatim. -/
theorem C2_load_never_throws :
    (load .absent = ⟨emptyConfigJson, false⟩) ∧
    (load .unparsable = ⟨emptyConfigJson, true⟩) ∧
    (∀ j : Json, Json.isArrOpt (j.lookup "workspaces") = false →
      load (.parsed j) = ⟨emptyConfigJson, false⟩) ∧
    (∀ j : Json, Json.isArrOpt (j.lookup "workspaces") = true →
      load (.parsed j) = ⟨j, false⟩) := by
  refine ⟨rfl, rfl, ?_, ?_⟩ <;> intro j h <;> simp [load, h]

/-- C2 witness: parsed `null` content has no `workspaces` array and loads
as the empty registry with no warning. -/
theorem C2_load_never_throws_witness :
    load (FileState.parsed Json.null) = ⟨emptyConfigJson, false⟩ :=
  C2_load_never_throws.2.2.1 Json.null rfl

/-- C3 (confirmed): launch-by-name on a registered workspace with a missing
`cwd` or a missing `addDirs` entry dies with exit code 1 and never spawns;
conversely a spawn outcome implies every one of those paths was validated
as existing. -/
theorem C3_launch_revalidation (fs : String → Bool) (code : Option Int)
    (config : Config) (name : String) (ws : Workspace)
    (hws : findByName config name = some ws) :
    ((fs ws.cwd = false ∨ ∃ d ∈ ws.addDirs.getD [], fs d = false) →
       ∃ msg, cmdLaunchByName fs code config name = .fatal msg ∧
         (cmdLaunchByName fs code config name).exit = 1) ∧
    (∀ cwd argv ec, cmdLaunchByName fs code config name = .spawned cwd argv ec →
       fs ws.cwd = true ∧ ∀ d ∈ ws.addDirs.getD [], fs d = true) := by
  have hlaunch : cmdLaunchByName fs code config name = launch fs code ws := by
    simp [cmdLaunchByName, hws]
  constructor
  · intro hbad
    rw [hlaunch]
    by_cases hc : fs ws.cwd
    · rcases hbad with hbad | ⟨d, hd, hfd⟩
      · rw [hc] at hbad; cases hbad
      · have hsome : ((ws.addDirs.getD []).find? (fun d => !fs d)).isSome := by
          rw [List.find?_isSome]
          exact ⟨d, hd, by simp [hfd]⟩
        obtain ⟨d', hd'⟩ := Option.isSome_iff_exists.mp hsome
        refine ⟨"Additional directory not found: " ++ d', ?_, ?_⟩
        · simp [launch, hc, hd']
        · simp [launch, hc, hd', LaunchOutcome.exit]
    · have hc' : fs ws.cwd = false := by simpa using hc
      refine ⟨"Working directory not found: " ++ ws.cwd, ?_, ?_⟩
      · simp [launch, hc']
      · simp [launch, hc', LaunchOutcome.exit]
  · intro cwd argv ec h
    rw [hlaunch] at h
    unfold launch at h
    by_cases hc : fs ws.cwd
    · rw [hc] at h
      simp only [Bool.not_true, Bool.false_eq_true, if_false] at h
      cases hfind : (ws.addDirs.getD []).find? (fun d => !fs d) with
      | some d => rw [hfind] at h; cases h
      | none =>
        refine ⟨hc, ?_⟩
        intro d hd
        have := List.find?_eq_none.mp hfind d hd
        simpa using this
    · have hc' : fs ws.cwd = false := by simpa using hc
      rw [hc'] at h
      simp at h

/-- C3 witness: with every path missing from the filesystem, launching the
registered workspace "w" by name is fatal with exit code 1. -/
theorem C3_launch_revalidation_witness :
    ∃ msg, cmdLaunchByName (fun _ => false) none ⟨[⟨"w", "d", "/a", none⟩]⟩ "w" =
        .fatal msg ∧
      (cmdLaunchByName (fun _ => false) none ⟨[⟨"w", "d", "/a", none⟩]⟩ "w").exit = 1 :=
  (C3_launch_revalidation (fun _ => false) none ⟨[⟨"w", "d", "/a", none⟩]⟩ "w"
    ⟨"w", "d", "/a", none⟩ (by decide)).1 (Or.inl rfl)

/-- C4 (confirmed): an add whose computed name collides case-insensitively
with an existing workspace, or whose resolved cwd is already registered,
terminates fatally (exit code 1) and never reaches the saving outcome, so
the persisted registry is untouched. -/
theorem C4_add_duplicate_fatal (env : PathEnv) (fs : String → Bool)
    (config : Config) (args : List String) (descResp : Option String)
    (confirmResp : Option Nat)
    (h : (findByName config (addName env args)).isSome = true ∨
         (findByCwd config (addCwd env args)).isSome = true) :
    (∃ msg, cmdAdd env fs config args descResp confirmResp = .fatal msg) ∧
    (∀ c', cmdAdd env fs config args descResp confirmResp ≠ .saved c') := by
  have main : ∃ msg, cmdAdd env fs config args descResp confirmResp = .fatal msg := by
    simp only [cmdAdd]
    by_cases hc : fs (addCwd env args)
    · rcases h with h | h
      · simp [hc, h]
      · by_cases hn : (findByName config (addName env args)).isSome
        · simp [hc, hn]
        · simp [hc, hn, h]
    · have hc' : fs (addCwd env args) = false := by simpa using hc
      simp [hc']
  refine ⟨main, ?_⟩
  obtain ⟨msg, hmsg⟩ := main
  intro c' hcontra
  rw [hmsg] at hcontra
  cases hcontra

/-- C4 witness: adding "APP" when "app" is registered is fatal even though
every directory exists and the user would confirm. -/
theorem C4_add_duplicate_fatal_witness :
    ∃ msg, cmdAdd ⟨"/h", "/c"⟩ (fun _ => true) ⟨[⟨"app", "d", "/p", none⟩]⟩
      ["APP", "/q"] none (some 0) = .fatal msg :=
  (C4_add_duplicate_fatal ⟨"/h", "/c"⟩ (fun _ => true) ⟨[⟨"app", "d", "/p", none⟩]⟩
    ["APP", "/q"] none (some 0) (Or.inl (by decide))).1

/-- C5 (confirmed): the saved workspace of a successful non-interactive add
has the computed name (falling back to the final path segment of the
resolved cwd when the name argument is absent or empty), the resolved cwd,
and as `addDirs` the resolved trailing arguments with the cwd-equal entries
filtered out and duplicates removed — the field being omitted (`none`)
rather than stored empty when nothing remains. -/
theorem C5_workspace_construction (env : PathEnv) (fs : String → Bool)
    (config : Config) (args : List String) (descResp : Option String)
    (h1 : args ≠ [])
    (h2 : fs (addCwd env args) = true)
    (h3 : findByName config (addName env args) = none)
    (h4 : findByCwd config (addCwd env args) = none)
    (h5 : ∀ d ∈ addRawDirs env args, fs d = true) :
    (cmdAdd env fs config args descResp (some 0) =
      .saved { workspaces := config.workspaces ++
        [{ name := addName env args
           description := addName env args
           cwd := addCwd env args
           addDirs :=
             if dedupFirst (((args.drop 2).map (resolvePath env)).filter
                 (fun d => d != addCwd env args)) = [] then none
             else some (dedupFirst (((args.drop 2).map (resolvePath env)).filter
                 (fun d => d != addCwd env args))) }] }) ∧
    (args[0]? = none ∨ args[0]? = some "" →
      addName env args = basename (addCwd env args)) := by
  constructor
  · rw [cmdAdd_valid_noninteractive env fs config args descResp (some 0) h1 h2 h3 h4 h5]
    rw [if_pos rfl]
    have hforms :
        (if (dedupFirst (addRawDirs env args)).length > 0 then
           some (dedupFirst (addRawDirs env args))
         else none) =
        (if dedupFirst (addRawDirs env args) = [] then none
         else some (dedupFirst (addRawDirs env args))) := by
      cases hdl : dedupFirst (addRawDirs env args) with
      | nil => simp
      | cons a t => simp
    simp only [addBuiltWs]
    rw [hforms]
    simp only [addRawDirs]
  · intro h0
    rcases h0 with h0 | h0 <;> simp [addName, h0]

/-- C5 witness: `add app /p /q /q` from an empty registry stores exactly
one `/q`, deduplicated. -/
theorem C5_workspace_construction_witness :
    cmdAdd ⟨"/h", "/c"⟩ (fun _ => true) ⟨[]⟩ ["app", "/p", "/q", "/q"] none (some 0) =
      .saved ⟨[⟨"app", "app", "/p", some ["/q"]⟩]⟩ :=
  ((C5_workspace_construction ⟨"/h", "/c"⟩ (fun _ => true) ⟨[]⟩
      ["app", "/p", "/q", "/q"] none (by decide) (by decide) (by decide)
      (by decide) (by decide)).1).trans (by decide)

/-- C6 (confirmed): once revalidation passes, the spawn runs in the
workspace's `cwd` with argv `claude` followed by a `--add-dir d` pair per
stored entry in stored order, and the tool's exit code is the child's
(`0` when the child reports none). -/
theorem C6_spawn_shape (fs : String → Bool) (code : Option Int)
    (config : Config) (name : String) (ws : Workspace)
    (hws : findByName config name = some ws)
    (hcwd : fs ws.cwd = true)
    (hdirs : ∀ d ∈ ws.addDirs.getD [], fs d = true) :
    cmdLaunchByName fs code config name =
      .spawned ws.cwd
        ("claude" :: (ws.addDirs.getD []).flatMap (fun d => ["--add-dir", d]))
        (code.getD 0) ∧
    (cmdLaunchByName fs code config name).exit = code.getD 0 := by
  have hfind : ((ws.addDirs.getD []).find? (fun d => !fs d)) = none :=
    List.find?_eq_none.mpr (fun d hd => by simp [hdirs d hd])
  have hmain : cmdLaunchByName fs code config name =
      .spawned ws.cwd
        ("claude" :: (ws.addDirs.getD []).flatMap (fun d => ["--add-dir", d]))
        (code.getD 0) := by
    simp [cmdLaunchByName, hws, launch, hcwd, hfind]
  exact ⟨hmain, by rw [hmain]; rfl⟩

/-- C6 witness: a workspace with two extra directories spawns
`claude --add-dir /x --add-dir /y` in `/a` and the child's code 7 is
propagated. -/
theorem C6_spawn_shape_witness :
    cmdLaunchByName (fun _ => true) (some 7)
        ⟨[⟨"w", "d", "/a", some ["/x", "/y"]⟩]⟩ "w" =
      .spawned "/a" ["claude", "--add-dir", "/x", "--add-dir", "/y"] 7 :=
  ((C6_spawn_shape (fun _ => true) (some 7) ⟨[⟨"w", "d", "/a", some ["/x", "/y"]⟩]⟩
    "w" ⟨"w", "d", "/a", some ["/x", "/y"]⟩ (by decide) rfl (by decide)).1).trans
    (by decide)

/-! ### Invariant preservation lemmas for C7 -/

theorem wsInv_some {w : Workspace} {l : List String} (h : w.addDirs = some l)
    (hinv : wsInv w) : l ≠ [] ∧ l.Nodup ∧ w.cwd ∉ l := by
  unfold wsInv at hinv
  rw [h] at hinv
  exact hinv

theorem configInv_setWs {c : Config} {i : Nat} {w : Workspace}
    (hc : configInv c) (hw : wsInv w) : configInv (setWs c i w) := by
  intro w' hw'
  rcases List.mem_or_eq_of_mem_set hw' with h | h
  · exact hc w' h
  · exact h ▸ hw

theorem editName_inv (c : Config) (i : Nat) (v : Option String)
    (hc : configInv c) : configInv (editName c i v).config := by
  unfold editName
  cases hws : c.workspaces[i]? with
  | none => exact hc
  | some ws =>
    cases v with
    | none => exact hc
    | some s =>
      dsimp only
      by_cases hcond : s ≠ "" ∧ s ≠ ws.name
      · rw [if_pos hcond]
        by_cases hf : (findByName c s).isSome
        · rw [if_pos hf]; exact hc
        · rw [if_neg hf]
          exact configInv_setWs hc (hc ws (List.getElem?_mem hws))
      · rw [if_neg hcond]; exact hc

theorem editDescription_inv (c : Config) (i : Nat) (v : Option String)
    (hc : configInv c) : configInv (editDescription c i v).config := by
  unfold editDescription
  cases hws : c.workspaces[i]? with
  | none => exact hc
  | some ws =>
    cases v with
    | none => exact hc
    | some s =>
      dsimp only
      by_cases hcond : s ≠ ""
      · rw [if_pos hcond]
        exact configInv_setWs hc (hc ws (List.getElem?_mem hws))
      · rw [if_neg hcond]; exact hc

theorem applyCwdChange_inv (ws : Workspace) (p : String) (h : wsInv ws) :
    wsInv (editCwd.applyCwdChange ws p) := by
  unfold editCwd.applyCwdChange
  cases haw : ws.addDirs with
  | none =>
    simp only [haw]
    trivial
  | some l =>
    obtain ⟨-, hnd, -⟩ := wsInv_some haw h
    simp only [haw]
    by_cases hl : (l.filter (fun d => d != p)).length = 0
    · simp only [if_pos hl]
      trivial
    · simp only [if_neg hl]
      refine ⟨?_, ?_, ?_⟩
      · intro hnil
        exact hl (by rw [hnil]; rfl)
      · exact hnd.filter _
      · intro hmem
        have hpred := (List.mem_filter.mp hmem).2
        simp at hpred

theorem editCwd_inv (env : PathEnv) (fs : String → Bool) (c : Config) (i : Nat)
    (v : Option String) (hc : configInv c) : configInv (editCwd env fs c i v).config := by
  unfold editCwd
  cases hws : c.workspaces[i]? with
  | none => exact hc
  | some ws =>
    cases v with
    | none => exact hc
    | some s =>
      dsimp only
      by_cases hs : s ≠ ""
      · rw [if_pos hs]
        by_cases hfs : fs (resolvePath env s)
        · rw [hfs]
          simp only [Bool.not_true, Bool.false_eq_true, if_false]
          have hwinv : wsInv ws := hc ws (List.getElem?_mem hws)
          cases hfc : findByCwd c (resolvePath env s) with
          | none => exact configInv_setWs hc (applyCwdChange_inv ws _ hwinv)
          | some other =>
            dsimp only
            by_cases hname : other.name ≠ ws.name
            · rw [if_pos hname]; exact hc
            · rw [if_neg hname]
              exact configInv_setWs hc (applyCwdChange_inv ws _ hwinv)
        · have hfs' : fs (resolvePath env s) = false := by simpa using hfs
          rw [hfs']
          simp only [Bool.not_false, if_true]
          exact hc
      · rw [if_neg hs]; exact hc

theorem addDirAdd_inv (env : PathEnv) (fs : String → Bool) (c : Config) (i : Nat)
    (v : Option String) (hc : configInv c) : configInv (addDirAdd env fs c i v).config := by
  unfold addDirAdd
  cases hws : c.workspaces[i]? with
  | none => exact hc
  | some ws =>
    cases v with
    | none => exact hc
    | some s =>
      dsimp only
      by_cases hs : s ≠ ""
      · rw [if_pos hs]
        by_cases hfs : fs (resolvePath env s)
        · rw [hfs]
          simp only [Bool.not_true, Bool.false_eq_true, if_false]
          by_cases hpc : resolvePath env s = ws.cwd
          · rw [if_pos hpc]; exact hc
          · rw [if_neg hpc]
            by_cases hcont : (ws.addDirs.getD []).contains (resolvePath env s)
            · rw [if_pos hcont]; exact hc
            · rw [if_neg hcont]
              have hwinv : wsInv ws := hc ws (List.getElem?_mem hws)
              have hold : (ws.addDirs.getD []).Nodup ∧ ws.cwd ∉ ws.addDirs.getD [] := by
                cases haw : ws.addDirs with
                | none => simp
                | some l =>
                  have := wsInv_some haw hwinv
                  simpa [haw] using ⟨this.2.1, this.2.2⟩
              have hpm : resolvePath env s ∉ ws.addDirs.getD [] := by
                intro hmem
                exact hcont (List.elem_iff.mpr hmem)
              refine configInv_setWs hc ⟨by simp, ?_, ?_⟩
              · exact hold.1.append (List.nodup_singleton _)
                  (fun x hx hx' => hpm ((List.mem_singleton.mp hx') ▸ hx))
              · intro hmem
                rcases List.mem_append.mp hmem with hm | hm
                · exact hold.2 hm
                · exact hpc ((List.mem_singleton.mp hm).symm)
        · have hfs' : fs (resolvePath env s) = false := by simpa using hfs
          rw [hfs']
          simp only [Bool.not_false, if_true]
          exact hc
      · rw [if_neg hs]; exact hc

theorem addDirRemove_inv (c : Config) (i : Nat) (di : Option Nat)
    (hc : configInv c) : configInv (addDirRemove c i di).config := by
  unfold addDirRemove
  cases hws : c.workspaces[i]? with
  | none => exact hc
  | some ws =>
    dsimp only
    cases haw : ws.addDirs with
    | none => exact hc
    | some l =>
      dsimp only
      by_cases hl : l.length = 0
      · rw [if_pos hl]; exact hc
      · rw [if_neg hl]
        cases di with
        | none => exact hc
        | some k =>
          dsimp only
          have hwinv : wsInv ws := hc ws (List.getElem?_mem hws)
          obtain ⟨-, hnd, hcwd⟩ := wsInv_some haw hwinv
          by_cases hek : (l.eraseIdx k).length = 0
          · rw [if_pos hek]
            exact configInv_setWs hc trivial
          · rw [if_neg hek]
            refine configInv_setWs hc ⟨?_, ?_, ?_⟩
            · intro hnil
              exact hek (by rw [hnil]; rfl)
            · exact (List.eraseIdx_sublist l k).nodup hnd
            · intro hmem
              exact hcwd ((List.eraseIdx_sublist l k).mem hmem)

theorem addDirClear_inv (c : Config) (i : Nat)
    (hc : configInv c) : configInv (addDirClear c i).config := by
  unfold addDirClear
  cases hws : c.workspaces[i]? with
  | none => exact hc
  | some ws =>
    dsimp only
    cases ws.addDirs with
    | none => exact hc
    | some l =>
      dsimp only
      by_cases hl : l.length ≠ 0
      · rw [if_pos hl]
        exact configInv_setWs hc trivial
      · rw [if_neg hl]; exact hc

theorem cmdAdd_inv (env : PathEnv) (fs : String → Bool) (config : Config)
    (args : List String) (d : Option String) (r : Option Nat) (c' : Config)
    (hc : configInv config) (h : cmdAdd env fs config args d r = .saved c') :
    configInv c' := by
  simp only [cmdAdd] at h
  split at h
  · exact AddOutcome.noConfusion h
  split at h
  · exact AddOutcome.noConfusion h
  split at h
  · exact AddOutcome.noConfusion h
  split at h
  · exact AddOutcome.noConfusion h
  split at h
  · exact AddOutcome.noConfusion h
  split at h
  · injection h with h'
    subst h'
    intro w hw
    rcases List.mem_append.mp hw with hm | hm
    · exact hc w hm
    · rw [List.mem_singleton.mp hm]
      by_cases hlen : (dedupFirst (addRawDirs env args)).length > 0
      · rw [if_pos hlen]
        refine ⟨List.length_pos.mp hlen, nodup_dedupFirst _, ?_⟩
        intro hmem
        have hraw := mem_of_mem_dedupFirst hmem
        have hpred := (List.mem_filter.mp hraw).2
        simp at hpred
      · rw [if_neg hlen]
        trivial
  · exact AddOutcome.noConfusion h

/-- C7 (confirmed): every write path — add; rename; description edit;
working-directory edit; and the add, remove and clear actions of the
additional-directories sub-menu — preserves the `addDirs` shape invariant:
whenever the field is present it is nonempty, duplicate-free and free of
the workspace's own `cwd`. -/
theorem C7_adddirs_invariant :
    (∀ env fs config args d r c', configInv config →
       cmdAdd env fs config args d r = .saved c' → configInv c') ∧
    (∀ c i v, configInv c → configInv (editName c i v).config) ∧
    (∀ c i v, configInv c → configInv (editDescription c i v).config) ∧
    (∀ env fs c i v, configInv c → configInv (editCwd env fs c i v).config) ∧
    (∀ env fs c i v, configInv c → configInv (addDirAdd env fs c i v).config) ∧
    (∀ c i di, configInv c → configInv (addDirRemove c i di).config) ∧
    (∀ c i, configInv c → configInv (addDirClear c i).config) :=
  ⟨fun env fs config args d r c' hc h => cmdAdd_inv env fs config args d r c' hc h,
   editName_inv, editDescription_inv, editCwd_inv, addDirAdd_inv,
   addDirRemove_inv, addDirClear_inv⟩

/-- C7 witness: pushing `/q` onto a workspace whose `addDirs` is `[/b]`
keeps the invariant on the whole registry. -/
theorem C7_adddirs_invariant_witness :
    configInv ((addDirAdd ⟨"/h", "/c"⟩ (fun _ => true)
      ⟨[⟨"a", "d", "/a", some ["/b"]⟩]⟩ 0 (some "/q")).config) :=
  C7_adddirs_invariant.2.2.2.2.1 ⟨"/h", "/c"⟩ (fun _ => true)
    ⟨[⟨"a", "d", "/a", some ["/b"]⟩]⟩ 0 (some "/q") (by decide)

/-- C8 counterexample: the claim's unconditional "succeeds" fails — when the
target path `/b` (an entry of the workspace's own `addDirs`) no longer
exists on the filesystem, the edit is rejected with a warning, the working
directory stays `/a` and the entry is not pruned. -/
theorem C8_counterexample :
    editCwd ⟨"/h", "/c"⟩ (fun _ => false) ⟨[⟨"a", "d", "/a", some ["/b"]⟩]⟩ 0
        (some "/b") =
      ⟨⟨[⟨"a", "d", "/a", some ["/b"]⟩]⟩, false, true⟩ := by
  decide

/-- The pruning step of edit case 2 on a duplicate-free `addDirs` list is an
`erase` of the new working directory. -/
theorem applyCwdChange_eq_erase (ws : Workspace) (p : String) (l : List String)
    (haw : ws.addDirs = some l) (hnd : l.Nodup) :
    editCwd.applyCwdChange ws p =
      { ws with
        cwd := p,
        addDirs := if l.erase p = [] then none else some (l.erase p) } := by
  unfold editCwd.applyCwdChange
  rw [haw]
  dsimp only
  rw [← hnd.erase_eq_filter p]
  simp only [List.length_eq_zero]

/-- C8 (amended): provided the path still exists on the filesystem and is
not a different workspace's `cwd`, editing a workspace's working directory
to a path appearing in its own duplicate-free `addDirs` succeeds and saves:
the `cwd` becomes that path, exactly that one entry is erased from
`addDirs` (every other entry kept in order), and the key is omitted
entirely when the list empties. -/
theorem C8_cwd_prunes_own_adddir (env : PathEnv) (fs : String → Bool)
    (c : Config) (i : Nat) (ws : Workspace) (l : List String) (v : String)
    (hws : c.workspaces[i]? = some ws)
    (haw : ws.addDirs = some l)
    (hnd : l.Nodup)
    (hv : v ≠ "")
    (hp : resolvePath env v ∈ l)
    (hfs : fs (resolvePath env v) = true)
    (hother : ∀ other, findByCwd c (resolvePath env v) = some other →
      other.name = ws.name) :
    editCwd env fs c i (some v) =
      ⟨setWs c i
        { ws with
          cwd := resolvePath env v,
          addDirs := if l.erase (resolvePath env v) = [] then none
                     else some (l.erase (resolvePath env v)) },
        true, false⟩ := by
  unfold editCwd
  rw [hws]
  dsimp only
  rw [if_pos hv, hfs]
  simp only [Bool.not_true, Bool.false_eq_true, if_false]
  rw [← applyCwdChange_eq_erase ws (resolvePath env v) l haw hnd]
  cases hfc : findByCwd c (resolvePath env v) with
  | none => rfl
  | some other =>
    dsimp only
    rw [if_neg (by simp [hother other hfc])]

/-- C8 witness: with `/b` present on disk and unregistered elsewhere,
repointing the workspace from `/a` to its own extra directory `/b` saves
`cwd = /b` and prunes exactly that entry, keeping `/e`. -/
theorem C8_cwd_prunes_own_adddir_witness :
    editCwd ⟨"/h", "/c"⟩ (fun _ => true) ⟨[⟨"a", "d", "/a", some ["/b", "/e"]⟩]⟩ 0
        (some "/b") =
      ⟨setWs ⟨[⟨"a", "d", "/a", some ["/b", "/e"]⟩]⟩ 0 ⟨"a", "d", "/b", some ["/e"]⟩,
        true, false⟩ :=
  (C8_cwd_prunes_own_adddir ⟨"/h", "/c"⟩ (fun _ => true)
    ⟨[⟨"a", "d", "/a", some ["/b", "/e"]⟩]⟩ 0 ⟨"a", "d", "/a", some ["/b", "/e"]⟩
    ["/b", "/e"] "/b" rfl rfl (by decide) (by decide) (by decide) rfl
    (fun other h => Option.noConfusion h)).trans (by decide)

/-- C9 (confirmed): rewriting an already-valid persisted file is
byte-identical.  The file written by `save` parses back to the same JSON
value; `load` returns that value verbatim (its `workspaces` field is an
array, and no warning fires), and `save` serializes it to exactly the same
bytes — the indented stringify plus a trailing newline. -/
theorem C9_save_load_roundtrip (c : Config) :
    saveBytes ((load (FileState.parsed (configToJson c))).data) =
      saveBytes (configToJson c) ∧
    (load (FileState.parsed (configToJson c))).warned = false := by
  have hshape : Json.isArrOpt ((configToJson c).lookup "workspaces") = true := by
    simp [configToJson, Json.lookup, Json.isArrOpt, List.find?]
  exact ⟨by simp [load, hshape], by simp [load, hshape]⟩

/-- C9 witness: the round trip at a concrete one-workspace registry. -/
theorem C9_save_load_roundtrip_witness :
    saveBytes ((load (FileState.parsed (configToJson ⟨[⟨"a", "a", "/a", none⟩]⟩))).data) =
      saveBytes (configToJson ⟨[⟨"a", "a", "/a", none⟩]⟩) :=
  (C9_save_load_roundtrip ⟨[⟨"a", "a", "/a", none⟩]⟩).1

/-- C10 (confirmed): even with fully valid non-interactive arguments, the
workspace is pushed and saved only when the confirmation selection returns
the first option (index 0, "Save"); any other index, and a cancelled
selection, return with nothing saved. -/
theorem C10_confirmation_gate (env : PathEnv) (fs : String → Bool)
    (config : Config) (args : List String) (descResp : Option String)
    (h1 : args ≠ [])
    (h2 : fs (addCwd env args) = true)
    (h3 : findByName config (addName env args) = none)
    (h4 : findByCwd config (addCwd env args) = none)
    (h5 : ∀ d ∈ addRawDirs env args, fs d = true) :
    (∃ c', cmdAdd env fs config args descResp (some 0) = .saved c') ∧
    (∀ r : Option Nat, r ≠ some 0 →
      cmdAdd env fs config args descResp r = .cancelled) := by
  constructor
  · exact ⟨_, by
      rw [cmdAdd_valid_noninteractive env fs config args descResp (some 0) h1 h2 h3 h4 h5,
        if_pos rfl]⟩
  · intro r hr
    rw [cmdAdd_valid_noninteractive env fs config args descResp r h1 h2 h3 h4 h5,
      if_neg hr]

/-- C10 witness: choosing the second option ("Cancel") on a fully valid
`add app /p` leaves the cancelled outcome, with nothing saved. -/
theorem C10_confirmation_gate_witness :
    cmdAdd ⟨"/h", "/c"⟩ (fun _ => true) ⟨[]⟩ ["app", "/p"] none (some 1) =
      .cancelled :=
  (C10_confirmation_gate ⟨"/h", "/c"⟩ (fun _ => true) ⟨[]⟩ ["app", "/p"] none
    (by decide) (by decide) (by decide) (by decide) (by decide)).2 (some 1) (by decide)

end Claudy
